import Mathlib

/-!
Verification of the fence-escaping transform of the zlmd (Zulip markdown)
library.  The Go sources embedded here are `zlmd/escaper.go`
(`_EscapeMarkdown`, `processSpoilerContent`) and the shortcut helpers
(`EscapeMarkdown`, `Spoiler`, `WriteSpoiler`, `CodeBlock`, `WriteCodeBlock`).
Strings are modelled as `List Char`; Go's `strings.Split(s, "\n")`,
`strings.TrimSpace`, `strings.HasPrefix`, `strings.TrimPrefix`,
`strings.Contains` and `strings.ReplaceAll` are given explicit executable
models below.
-/

/-- The backtick character, written via its code point. -/
def btick : Char := Char.ofNat 96

/-- Go's `unicode.IsSpace` restricted to the code points it recognises in
Latin-1: space, tab, newline, vertical tab, form feed, carriage return,
next line (U+0085) and no-break space (U+00A0). -/
def goIsSpace (c : Char) : Bool :=
  c = ' ' || c = '\t' || c = '\n' || c = '\x0b' || c = '\x0c' || c = '\r' ||
  c = Char.ofNat 133 || c = Char.ofNat 160

/-- Drop leading Go whitespace. -/
def dropLead (s : List Char) : List Char := s.dropWhile goIsSpace

/-- Drop trailing Go whitespace. -/
def dropTrail (s : List Char) : List Char := (s.reverse.dropWhile goIsSpace).reverse

/-- Model of Go `strings.TrimSpace`. -/
def trimSpace (s : List Char) : List Char := dropTrail (dropLead s)

/-- Model of Go `strings.HasPrefix s pat` on char lists. -/
def startsWithL : List Char → List Char → Bool
  | _, [] => true
  | [], _ :: _ => false
  | c :: cs, p :: ps => c = p && startsWithL cs ps

/-- The fence token, three backticks. -/
def ticks : List Char := "```".data

/-- The spoiler opener token. -/
def spoilerTag : List Char := "```spoiler".data

/-- Three tildes, the replacement fence. -/
def tildes : List Char := "~~~".data

/-- Model of Go `strings.TrimPrefix(line, "```")`. -/
def dropTicks (line : List Char) : List Char :=
  if startsWithL line ticks then line.drop 3 else line

/-- Model of Go `strings.Split(s, "\n")`: always returns at least one
(line) element; `splitLines [] = [[]]` like Go's `Split("", "\n") = [""]`. -/
def splitLines : List Char → List (List Char)
  | [] => [[]]
  | c :: rest =>
    if c = '\n' then [] :: splitLines rest
    else
      match splitLines rest with
      | [] => [[c]]
      | l :: ls => (c :: l) :: ls

/-- Join lines with a single newline between consecutive lines (the inverse
of `splitLines`); no trailing newline is added. -/
def joinL : List (List Char) → List Char
  | [] => []
  | [l] => l
  | l :: ls => l ++ '\n' :: joinL ls

/-- Each line followed by a newline, concatenated (the shape of the per-line
chunks that Go's inner loops write). -/
def seg : List (List Char) → List Char
  | [] => []
  | l :: ls => l ++ '\n' :: seg ls

/-- The structural precondition checked defensively at the top of
`processSpoilerContent`: the first buffered line starts with the spoiler
opener and the last buffered line is exactly the bare fence. -/
def spoilerStructOk (lines : List (List Char)) : Bool :=
  startsWithL (lines.headD []) spoilerTag &&
    (decide (2 ≤ lines.length) && decide (lines.getLastD [] = ticks))

/-- The interior loop of `processSpoilerContent` (escaper.go lines 146-169):
scans the lines strictly between the spoiler opener and closer, carrying
`inNestedCode` and `fenceBalance`, writing each processed line followed by a
newline; `none` models the `return spoilerBlock, false` branches. -/
def spoilerLoop : List (List Char) → Bool → Nat → List Char → Option (List Char)
  | [], inNested, fb, acc =>
    if inNested || fb ≠ 0 then none else some acc
  | line :: rest, inNested, fb, acc =>
    let t := trimSpace line
    if inNested = false then
      if startsWithL t ticks then
        if fb ≠ 0 then none
        else spoilerLoop rest true 1 (acc ++ (tildes ++ dropTicks line) ++ ['\n'])
      else spoilerLoop rest false fb (acc ++ line ++ ['\n'])
    else
      if t = ticks then
        if fb ≠ 1 then none
        else spoilerLoop rest false 0 (acc ++ tildes ++ ['\n'])
      else spoilerLoop rest true fb (acc ++ line ++ ['\n'])

/-- Model of `processSpoilerContent` (escaper.go lines 116-177).  The Go
function returns `(string, bool)`; `none` models every `(spoilerBlock,
false)` return, `some r` models `(r, true)`. -/
def processSpoilerContent (spoilerBlock : List Char) : Option (List Char) :=
  let trimmedBlock := trimSpace spoilerBlock
  if trimmedBlock = [] then some []
  else
    let lines := splitLines trimmedBlock
    if ¬ spoilerStructOk lines then none
    else
      match spoilerLoop ((lines.drop 1).dropLast) false 0 [] with
      | none => none
      | some body => some (lines.headD [] ++ '\n' :: (body ++ lines.getLastD []))

/-- The three mutually exclusive modes of the top-level scan of
`_EscapeMarkdown`; `inSpoiler` carries the spoiler content buffer. -/
inductive ScanState
  | outside
  | inSpoiler (buf : List Char)
  | inTopLevelCode
deriving DecidableEq

/-- The top-level line loop of `_EscapeMarkdown` (escaper.go lines 26-98).
Each line is written followed by a newline except for the very last input
line (`i < len(lines)-1` in Go).  `none` models the `(markdown, false)`
returns, both the sub-processor failure and the end-of-input check for an
unclosed block. -/
def escapeLoop : List (List Char) → ScanState → List Char → Option (List Char)
  | [], st, acc =>
    match st with
    | .outside => some acc
    | _ => none
  | line :: rest, st, acc =>
    let t := trimSpace line
    let nl : List Char := if rest = [] then [] else ['\n']
    match st with
    | .inSpoiler buf =>
      let buf2 := buf ++ line ++ nl
      if t = ticks then
        match processSpoilerContent buf2 with
        | none => none
        | some processed => escapeLoop rest .outside (acc ++ processed)
      else escapeLoop rest (.inSpoiler buf2) acc
    | .inTopLevelCode =>
      if t = ticks then escapeLoop rest .outside (acc ++ line ++ nl)
      else escapeLoop rest .inTopLevelCode (acc ++ line ++ nl)
    | .outside =>
      if startsWithL t spoilerTag then escapeLoop rest (.inSpoiler (line ++ nl)) acc
      else if startsWithL t ticks then escapeLoop rest .inTopLevelCode (acc ++ line ++ nl)
      else escapeLoop rest .outside (acc ++ line ++ nl)

/-- Model of `_EscapeMarkdown` (escaper.go lines 19-112): on success the
built result with `true`, on any failure the original input with `false`. -/
def _EscapeMarkdown (markdown : List Char) : List Char × Bool :=
  match escapeLoop (splitLines markdown) .outside [] with
  | some r => (r, true)
  | none => (markdown, false)

/-- The parse state in which the top-level scan of `_EscapeMarkdown` ends:
it mirrors `escapeLoop` exactly, returning the state at end of input;
`none` models the early abort when `processSpoilerContent` fails. -/
def scanFinal : List (List Char) → ScanState → Option ScanState
  | [], st => some st
  | line :: rest, st =>
    let t := trimSpace line
    let nl : List Char := if rest = [] then [] else ['\n']
    match st with
    | .inSpoiler buf =>
      let buf2 := buf ++ line ++ nl
      if t = ticks then
        match processSpoilerContent buf2 with
        | none => none
        | some _ => scanFinal rest .outside
      else scanFinal rest (.inSpoiler buf2)
    | .inTopLevelCode =>
      if t = ticks then scanFinal rest .outside
      else scanFinal rest .inTopLevelCode
    | .outside =>
      if startsWithL t spoilerTag then scanFinal rest (.inSpoiler (line ++ nl))
      else if startsWithL t ticks then scanFinal rest .inTopLevelCode
      else scanFinal rest .outside

/-! The shortcut helpers from the package root (`part_006`): the exported
`EscapeMarkdown` is the identity, and `Spoiler` rewrites by plain substring
replacement. -/

/-- Model of the exported `EscapeMarkdown(v string) (string, error)`:
`return v, nil`.  The `error` result is modelled as `Option (List Char)`
with `none` for `nil`. -/
def EscapeMarkdown (v : List Char) : List Char × Option (List Char) := (v, none)

/-- Model of Go `strings.Contains(s, "```")`. -/
def containsTicks : List Char → Bool
  | [] => false
  | c :: cs => startsWithL (c :: cs) ticks || containsTicks cs

/-- Model of Go `strings.ReplaceAll(s, "```", "~~~")`: left-to-right,
non-overlapping replacement of each occurrence of three backticks by three
tildes. -/
def replaceTicks : List Char → List Char
  | [] => []
  | c :: cs =>
    if startsWithL (c :: cs) ticks then tildes ++ replaceTicks (cs.drop 2)
    else c :: replaceTicks cs
termination_by s => s.length
decreasing_by
  all_goals simp [List.length_drop]
  omega

/-- Model of `WriteSpoiler` (part_006): writes the opener, the heading, a
newline, the text with backtick fences replaced by tildes when any occur,
then a newline and the closing fence. -/
def WriteSpoiler (heading text : List Char) : List Char :=
  "```spoiler ".data ++ heading ++
    '\n' :: ((if containsTicks text then replaceTicks text else text) ++ '\n' :: ticks)

/-- Model of `Spoiler` (part_006): builds the spoiler block via
`WriteSpoiler`. -/
def Spoiler (heading text : List Char) : List Char := WriteSpoiler heading text

/-- Model of `WriteCodeBlock` (part_006): fence, language, newline, the text
passed through the exported `EscapeMarkdown`, newline, closing fence. -/
def WriteCodeBlock (language text : List Char) : List Char :=
  ticks ++ language ++ '\n' :: ((EscapeMarkdown text).1 ++ '\n' :: ticks)

/-- Model of `CodeBlock` (part_006): builds the block via `WriteCodeBlock`. -/
def CodeBlock (language text : List Char) : List Char := WriteCodeBlock language text

/-! Helper lemmas. -/

/-- If a string contains no triple-backtick occurrence, `replaceTicks` is
the identity on it. -/
lemma replaceTicks_of_not_contains (s : List Char) (h : containsTicks s = false) :
    replaceTicks s = s := by
  induction s with
  | nil => simp [replaceTicks]
  | cons c cs ih =>
    rw [containsTicks] at h
    simp only [Bool.or_eq_false_iff] at h
    rw [replaceTicks, h.1]
    simp [ih h.2]

/-! Claim theorems. -/

/-- C1: the spec says a spoiler block containing one balanced nested backtick
code block is accepted with the inner fence pair rewritten to tildes, and in
particular the example document succeeds.  The code disagrees: the top-level
scan closes the spoiler at the first bare fence line (the inner block's
closer), so the buffered spoiler ends inside an unclosed nested fence and
`_EscapeMarkdown` returns the input with `false` on the spec's own example. -/
theorem claim1_spoiler_nested_fence_example_fails :
    _EscapeMarkdown "```spoiler Code Example\n```go\nfmt.Println(\"Hello\")\n```\n```".data
      = ("```spoiler Code Example\n```go\nfmt.Println(\"Hello\")\n```\n```".data, false) := by
  decide

/-- C2: whenever `_EscapeMarkdown` reports failure, the returned text is the
input itself, byte for byte (every failure branch returns `markdown`). -/
theorem claim2_failure_returns_input_unchanged (d t : List Char)
    (h : _EscapeMarkdown d = (t, false)) : t = d := by
  unfold _EscapeMarkdown at h
  cases hE : escapeLoop (splitLines d) .outside [] <;> rw [hE] at h <;> simp_all

/-- Witness for C2 at the concrete failing input consisting of a single
unclosed fence line. -/
theorem claim2_failure_returns_input_unchanged_witness :
    _EscapeMarkdown "```".data = ("```".data, false) ∧
      ("```".data : List Char) = "```".data :=
  ⟨by decide, claim2_failure_returns_input_unchanged "```".data "```".data (by decide)⟩

/-- C3: the exported `EscapeMarkdown` returns its input with a nil error for
every input, and consequently `CodeBlock`/`WriteCodeBlock` (its only caller)
embeds the text verbatim with no fence rewriting or validation. -/
theorem claim3_exported_escape_is_identity :
    (∀ v : List Char, EscapeMarkdown v = (v, none)) ∧
      (∀ language text : List Char,
        CodeBlock language text = ticks ++ language ++ '\n' :: (text ++ '\n' :: ticks)) :=
  ⟨fun _ => rfl, fun _ _ => rfl⟩

/-- C4: the spec says a successful run preserves the input's newline
structure exactly.  The code disagrees: the newline that separated a
spoiler's closing fence from the following line is dropped (the three-line
input collapses to two lines), yet the run still reports success. -/
theorem claim4_newline_structure_not_preserved :
    _EscapeMarkdown "```spoiler a\n```\nx".data = ("```spoiler a\n```x".data, true) ∧
      (splitLines "```spoiler a\n```\nx".data).length = 3 ∧
      (splitLines "```spoiler a\n```x".data).length = 2 := by
  refine ⟨by decide, by decide, by decide⟩

/-- C5: the spec says successful output is a fixed point of `Escape`.  The
code disagrees: on the input below the first run succeeds but eats the blank
line after the spoiler, and a second run eats the remaining newline as well,
so `Escape(Escape(d).text).text` differs from `Escape(d).text`. -/
theorem claim5_not_idempotent_on_success :
    _EscapeMarkdown "```spoiler a\n```\n\nx".data = ("```spoiler a\n```\nx".data, true) ∧
      (_EscapeMarkdown "```spoiler a\n```\nx".data).1 = "```spoiler a\n```x".data ∧
      ("```spoiler a\n```x".data : List Char) ≠ "```spoiler a\n```\nx".data := by
  refine ⟨by decide, by decide, by decide⟩

/-- C9 counterexample: a spoiler closed by a fence line with leading
whitespace is handed to `processSpoilerContent` as a buffer whose last line
is not exactly the bare fence, so the defensive structural check fires even
though the buffer came from the top-level scan of `_EscapeMarkdown`. -/
theorem claim9_precondition_counterexample :
    _EscapeMarkdown "```spoiler a\n ```".data = ("```spoiler a\n ```".data, false) ∧
      processSpoilerContent "```spoiler a\n ```".data = none ∧
      spoilerStructOk (splitLines (trimSpace "```spoiler a\n ```".data)) = false ∧
      spoilerLoop [] false 0 [] = some [] := by
  refine ⟨by decide, by decide, by decide, by decide⟩

/-- C10: `Spoiler` emits the opener with the heading, the text with every
triple-backtick occurrence replaced by tildes (plain substring replacement,
no balance validation, total function), and the closing fence. -/
theorem claim10_spoiler_replaceall (heading text : List Char) :
    Spoiler heading text
      = "```spoiler ".data ++ heading ++ '\n' :: (replaceTicks text ++ '\n' :: ticks) := by
  unfold Spoiler WriteSpoiler
  cases h : containsTicks text with
  | true => simp
  | false => simp [replaceTicks_of_not_contains text h]

/-! Structural lemmas about line splitting and joining. -/

/-- Go's `strings.Split` never returns an empty slice. -/
lemma splitLines_ne_nil (s : List Char) : splitLines s ≠ [] := by
  cases s with
  | nil => simp [splitLines]
  | cons c rest =>
    rw [splitLines]
    split
    · simp
    · cases h : splitLines rest with
      | nil => simp [h]
      | cons l ls => simp [h]

/-- Unfolding equation of `joinL` on a two-element head. -/
lemma joinL_cons₂ (l m : List Char) (ls : List (List Char)) :
    joinL (l :: m :: ls) = l ++ '\n' :: joinL (m :: ls) := rfl

/-- Every `splitLines` result is headed by some line. -/
lemma splitLines_cons_of_exists (rest : List Char) :
    ∃ l ls, splitLines rest = l :: ls := by
  cases h : splitLines rest with
  | nil => exact absurd h (splitLines_ne_nil rest)
  | cons l ls => exact ⟨l, ls, rfl⟩

/-- Rejoining the split lines gives back the original text: writing each
line followed by a newline except for the last reconstructs the input. -/
lemma joinL_splitLines (s : List Char) : joinL (splitLines s) = s := by
  induction s with
  | nil => rfl
  | cons c rest ih =>
    obtain ⟨l, ls, hE⟩ := splitLines_cons_of_exists rest
    rw [hE] at ih
    by_cases hc : c = '\n'
    · subst hc
      rw [splitLines, if_pos rfl, hE, joinL_cons₂]
      simp [ih]
    · rw [splitLines, if_neg hc, hE]
      cases ls with
      | nil =>
        simp only [joinL] at ih ⊢
        rw [ih]
      | cons m ms =>
        rw [joinL_cons₂] at ih
        rw [joinL_cons₂]
        simp only [List.cons_append, ih]

/-- `startsWithL` agrees with the list prefix order. -/
lemma startsWithL_iff (s p : List Char) : startsWithL s p = true ↔ p <+: s := by
  induction p generalizing s with
  | nil => simp [startsWithL]
  | cons q qs ih =>
    cases s with
    | nil => simp [startsWithL]
    | cons c cs =>
      rw [startsWithL]
      simp only [Bool.and_eq_true, decide_eq_true_eq, List.cons_prefix_cons, ih]
      constructor
      · rintro ⟨ha, hb⟩; exact ⟨ha.symm, hb⟩
      · rintro ⟨ha, hb⟩; exact ⟨ha.symm, hb⟩

/-- A line that starts with the spoiler opener in particular starts with a
plain fence. -/
lemma ticks_of_spoilerTag (s : List Char) (h : startsWithL s spoilerTag = true) :
    startsWithL s ticks = true := by
  rw [startsWithL_iff] at h ⊢
  exact List.IsPrefix.trans (by decide) h

/-- On a run of plain lines the scan stays `Outside` and writes every line
verbatim with the input's newline structure. -/
lemma escapeLoop_plain (lines : List (List Char)) (acc : List Char)
    (h : ∀ l ∈ lines, startsWithL (trimSpace l) ticks = false) :
    escapeLoop lines .outside acc = some (acc ++ joinL lines) := by
  induction lines generalizing acc with
  | nil => simp [escapeLoop, joinL]
  | cons l rest ih =>
    have hl : startsWithL (trimSpace l) ticks = false := h l (List.mem_cons_self l rest)
    have hsp : startsWithL (trimSpace l) spoilerTag = false := by
      cases hq : startsWithL (trimSpace l) spoilerTag with
      | false => rfl
      | true => rw [ticks_of_spoilerTag _ hq] at hl; exact absurd hl (by simp)
    rw [escapeLoop]
    simp only [hsp, hl, Bool.false_eq_true, if_false]
    cases rest with
    | nil => simp [escapeLoop, joinL]
    | cons m ms =>
      rw [if_neg (List.cons_ne_nil m ms),
        ih (acc ++ l ++ ['\n']) (fun x hx => h x (List.mem_cons_of_mem l hx)), joinL_cons₂]
      simp

/-- Claim C7: an input with no line whose trimmed form starts with the fence
token passes through `_EscapeMarkdown` unchanged with `ok = true`; in
particular the empty input yields the empty successful result. -/
theorem claim7_no_fence_lines_identity (d : List Char)
    (h : ∀ l ∈ splitLines d, startsWithL (trimSpace l) ticks = false) :
    _EscapeMarkdown d = (d, true) := by
  unfold _EscapeMarkdown
  rw [escapeLoop_plain _ _ h]
  simp [joinL_splitLines]

/-- Witness for C7 on a concrete fence-free document. -/
theorem claim7_no_fence_lines_identity_witness :
    (∀ l ∈ splitLines "hello\nworld".data, startsWithL (trimSpace l) ticks = false) ∧
      _EscapeMarkdown "hello\nworld".data = ("hello\nworld".data, true) :=
  ⟨by decide, claim7_no_fence_lines_identity "hello\nworld".data (by decide)⟩

/-- The builder loop succeeds exactly when the state-tracking scan ends in
the `Outside` mode. -/
lemma escapeLoop_isSome_iff (lines : List (List Char)) (st : ScanState) (acc : List Char) :
    (escapeLoop lines st acc).isSome = true ↔ scanFinal lines st = some .outside := by
  induction lines generalizing st acc with
  | nil => cases st <;> simp [escapeLoop, scanFinal]
  | cons line rest ih =>
    cases st with
    | outside =>
      simp only [escapeLoop, scanFinal]
      split_ifs <;> exact ih _ _
    | inTopLevelCode =>
      simp only [escapeLoop, scanFinal]
      split_ifs <;> exact ih _ _
    | inSpoiler buf =>
      simp only [escapeLoop, scanFinal]
      by_cases ht : trimSpace line = ticks
      · simp only [if_pos ht]
        cases hp : processSpoilerContent (buf ++ line ++ (if rest = [] then [] else ['\n'])) with
        | none => simp [hp]
        | some p => simp only [hp]; exact ih _ _
      · simp only [if_neg ht]; exact ih _ _

/-- Claim C6: if the top-level scan of `_EscapeMarkdown` ends in a state
other than `Outside` (a spoiler or top-level code block opened and never
closed), the function returns the original input with `ok = false`; and
conversely a successful run implies the scan ended `Outside`. -/
theorem claim6_unclosed_block_means_failure (d : List Char) :
    (∀ st, scanFinal (splitLines d) .outside = some st → st ≠ .outside →
        _EscapeMarkdown d = (d, false)) ∧
      ((_EscapeMarkdown d).2 = true → scanFinal (splitLines d) .outside = some .outside) := by
  constructor
  · intro st hst hne
    unfold _EscapeMarkdown
    cases hE : escapeLoop (splitLines d) .outside [] with
    | none => rfl
    | some r =>
      have hs : (escapeLoop (splitLines d) ScanState.outside []).isSome = true := by simp [hE]
      rw [escapeLoop_isSome_iff] at hs
      rw [hs] at hst
      exact absurd (Option.some.inj hst).symm hne
  · intro hok
    unfold _EscapeMarkdown at hok
    cases hE : escapeLoop (splitLines d) .outside [] with
    | none => rw [hE] at hok; simp at hok
    | some r =>
      rw [← escapeLoop_isSome_iff (splitLines d) .outside []]
      simp [hE]

/-- Witness for C6: a lone unclosed fence line ends the scan in
`InTopLevelCode` and the whole input is returned with `false`. -/
theorem claim6_unclosed_block_means_failure_witness :
    scanFinal (splitLines "```".data) .outside = some .inTopLevelCode ∧
      _EscapeMarkdown "```".data = ("```".data, false) :=
  ⟨by decide, (claim6_unclosed_block_means_failure "```".data).1 .inTopLevelCode (by decide) (by decide)⟩

/-- Unfolding of `joinL` on a cons with nonempty tail. -/
lemma joinL_cons_ne (l : List Char) (ls : List (List Char)) (h : ls ≠ []) :
    joinL (l :: ls) = l ++ '\n' :: joinL ls := by
  cases ls with
  | nil => exact absurd rfl h
  | cons m ms => exact joinL_cons₂ l m ms

/-- Joining lines with a trailing singleton: every earlier line is written
with a newline, the final one bare. -/
lemma joinL_concat (ls : List (List Char)) (x : List Char) :
    joinL (ls ++ [x]) = seg ls ++ x := by
  induction ls with
  | nil => simp [joinL, seg]
  | cons l rest ih =>
    rw [List.cons_append, joinL_cons_ne l (rest ++ [x]) (by simp), ih, seg]
    simp

/-- While in `InTopLevelCode` the scan writes the block's body and closing
fence verbatim, then returns to `Outside`. -/
lemma escapeLoop_topcode (body : List (List Char)) (closer : List Char)
    (rest' : List (List Char)) (acc : List Char)
    (h3 : ∀ b ∈ body, trimSpace b ≠ ticks) (h4 : trimSpace closer = ticks) :
    escapeLoop (body ++ closer :: rest') .inTopLevelCode acc
      = escapeLoop rest' .outside
          (acc ++ seg body ++ closer ++ (if rest' = [] then [] else ['\n'])) := by
  induction body generalizing acc with
  | nil =>
    rw [List.nil_append, escapeLoop]
    simp only [h4, if_pos rfl, seg]
    simp [List.append_assoc]
  | cons b bs ih =>
    rw [List.cons_append, escapeLoop]
    simp only [if_neg (h3 b (List.mem_cons_self b bs)),
      if_neg (List.append_ne_nil_of_right_ne_nil bs (List.cons_ne_nil closer rest'))]
    rw [ih (acc ++ b ++ ['\n']) (fun x hx => h3 x (List.mem_cons_of_mem b hx))]
    simp [seg, List.append_assoc]

/-- Claim C8: a plain fence line met while `Outside` opens a top-level code
block; every line of the block up to and including the exact closing fence
line is emitted byte-for-byte unchanged (regardless of content, including
spoiler-opener-looking or nested-fence-looking lines, none of which change
the parse state), and the scan resumes `Outside` after the block. -/
theorem claim8_top_level_code_passthrough (acc op closer : List Char)
    (body rest' : List (List Char))
    (h1 : startsWithL (trimSpace op) ticks = true)
    (h2 : startsWithL (trimSpace op) spoilerTag = false)
    (h3 : ∀ b ∈ body, trimSpace b ≠ ticks)
    (h4 : trimSpace closer = ticks) :
    escapeLoop (op :: (body ++ closer :: rest')) .outside acc
      = escapeLoop rest' .outside
          (acc ++ joinL (op :: (body ++ [closer])) ++ (if rest' = [] then [] else ['\n'])) := by
  rw [escapeLoop]
  simp only [h2, Bool.false_eq_true, if_false, h1, if_true,
    if_neg (List.append_ne_nil_of_right_ne_nil body (List.cons_ne_nil closer rest'))]
  rw [escapeLoop_topcode body closer rest' (acc ++ op ++ ['\n']) h3 h4,
    joinL_cons_ne op (body ++ [closer]) (by simp), joinL_concat]
  simp [List.append_assoc]

/-- Witness for C8 on a concrete block whose body line looks like a spoiler
opener yet passes through untouched. -/
theorem claim8_top_level_code_passthrough_witness :
    escapeLoop ("```go".data :: (["```spoiler x".data] ++ "```".data :: [])) .outside []
      = escapeLoop [] .outside
          ([] ++ joinL ("```go".data :: (["```spoiler x".data] ++ ["```".data])) ++
            (if ([] : List (List Char)) = [] then [] else ['\n'])) :=
  claim8_top_level_code_passthrough [] "```go".data "```".data ["```spoiler x".data] []
    (by decide) (by decide) (by decide) (by decide)

/-- Trimming trailing whitespace leaves an initial segment of the string. -/
lemma dropTrail_isPre (s : List Char) : dropTrail s <+: s := by
  have hsuf : s.reverse.dropWhile goIsSpace <:+ s.reverse :=
    ⟨s.reverse.takeWhile goIsSpace, List.takeWhile_append_dropWhile goIsSpace s.reverse⟩
  have hrv := List.reverse_prefix.mpr hsuf
  rwa [List.reverse_reverse] at hrv

/-- A token at the start of an initial segment is at the start of the whole
string. -/
lemma startsWithL_of_isPre (s s' p : List Char) (hp : s <+: s')
    (h : startsWithL s p = true) : startsWithL s' p = true := by
  rw [startsWithL_iff] at h ⊢
  exact h.trans hp

/-- Leading-whitespace removal distributes over an append whose left part
keeps a non-whitespace character. -/
lemma dropLead_append_of_ne (xs ys : List Char) (h : dropLead xs ≠ []) :
    dropLead (xs ++ ys) = dropLead xs ++ ys := by
  unfold dropLead at *
  rw [List.dropWhile_append]
  simp only [List.isEmpty_iff]
  rw [if_neg h]

/-- Trailing-whitespace removal keeps a string ending in a non-whitespace
character intact. -/
lemma dropTrail_concat_nonspace (xs : List Char) (c : Char) (h : goIsSpace c = false) :
    dropTrail (xs ++ [c]) = xs ++ [c] := by
  unfold dropTrail
  rw [List.reverse_append]
  simp only [List.reverse_singleton, List.singleton_append, List.dropWhile_cons, h]
  simp

/-- Trailing-whitespace removal absorbs a final newline. -/
lemma dropTrail_concat_newline (xs : List Char) :
    dropTrail (xs ++ ['\n']) = dropTrail xs := by
  unfold dropTrail
  rw [List.reverse_append]
  simp only [List.reverse_singleton, List.singleton_append, List.dropWhile_cons]
  simp [goIsSpace]

/-- Removing leading whitespace introduces no newline. -/
lemma newline_not_mem_dropLead (s : List Char) (h : '\n' ∉ s) : '\n' ∉ dropLead s :=
  fun hm => h ((List.dropWhile_sublist goIsSpace).subset hm)

/-- A newline-free string splits into the single line it is. -/
lemma splitLines_no_newline (xs : List Char) (h : '\n' ∉ xs) : splitLines xs = [xs] := by
  induction xs with
  | nil => rfl
  | cons c cs ih =>
    have hc : c ≠ '\n' := fun he => h (he ▸ List.mem_cons_self c cs)
    rw [splitLines, if_neg hc, ih (fun hm => h (List.mem_cons_of_mem c hm))]

/-- Splitting after a newline-free first line peels it off. -/
lemma splitLines_append_newline (xs ys : List Char) (h : '\n' ∉ xs) :
    splitLines (xs ++ '\n' :: ys) = xs :: splitLines ys := by
  induction xs with
  | nil => rw [List.nil_append, splitLines, if_pos rfl]
  | cons c cs ih =>
    have hc : c ≠ '\n' := fun he => h (he ▸ List.mem_cons_self c cs)
    rw [List.cons_append, splitLines, if_neg hc,
      ih (fun hm => h (List.mem_cons_of_mem c hm))]

/-- Splitting the join of newline-free lines recovers the lines. -/
lemma splitLines_joinL (ls : List (List Char)) (hne : ls ≠ [])
    (h : ∀ l ∈ ls, '\n' ∉ l) : splitLines (joinL ls) = ls := by
  induction ls with
  | nil => exact absurd rfl hne
  | cons l rest ih =>
    cases rest with
    | nil =>
      simp only [joinL]
      exact splitLines_no_newline l (h l (List.mem_cons_self l []))
    | cons m ms =>
      rw [joinL_cons₂, splitLines_append_newline l _ (h l (List.mem_cons_self l _)),
        ih (List.cons_ne_nil m ms) (fun x hx => h x (List.mem_cons_of_mem l hx))]

/-- Claim C9 (amended): a spoiler buffer accumulated by the top-level scan
from an opener line through a closing fence line that is exactly the bare
fence (the buffer the scan hands over whenever the closing line carries no
surrounding whitespace, with or without the trailing newline the scan adds
for a non-final line) satisfies the sub-processor's structural
precondition, so the defensive failure branch is not taken on it. -/
theorem claim9_struct_precondition_amended (opener : List Char)
    (mid : List (List Char)) (trailNl : Bool)
    (h1 : '\n' ∉ opener)
    (h2 : ∀ m ∈ mid, '\n' ∉ m)
    (h3 : startsWithL (trimSpace opener) spoilerTag = true) :
    spoilerStructOk (splitLines (trimSpace
      (joinL (opener :: (mid ++ [ticks])) ++ (if trailNl then ['\n'] else [])))) = true := by
  have hjoin : joinL (opener :: (mid ++ [ticks])) = opener ++ '\n' :: (seg mid ++ ticks) := by
    rw [joinL_cons_ne _ _ (by simp), joinL_concat]
  have hdlne : dropLead opener ≠ [] := by
    intro hdl
    have hts : trimSpace opener = [] := by
      unfold trimSpace
      rw [hdl]
      rfl
    rw [hts] at h3
    exact absurd h3 (by decide)
  have hticks3 : ticks = [btick, btick, btick] := by decide
  have hA : '\n' ∉ dropLead opener := newline_not_mem_dropLead opener h1
  rw [hjoin]
  have hstep1 : trimSpace ((opener ++ '\n' :: (seg mid ++ ticks)) ++ (if trailNl then ['\n'] else []))
      = dropLead opener ++ '\n' :: (seg mid ++ ticks) := by
    unfold trimSpace
    rw [List.append_assoc, dropLead_append_of_ne opener _ hdlne]
    have hre : dropLead opener ++ ('\n' :: (seg mid ++ ticks) ++ (if trailNl then ['\n'] else []))
        = ((dropLead opener ++ '\n' :: (seg mid ++ [btick, btick])) ++ [btick])
            ++ (if trailNl then ['\n'] else []) := by
      simp [hticks3, List.append_assoc]
    rw [hre]
    cases trailNl with
    | false =>
      simp only [Bool.false_eq_true, if_false, List.append_nil]
      rw [dropTrail_concat_nonspace _ _ (by decide)]
      simp [hticks3, List.append_assoc]
    | true =>
      simp only [if_true]
      rw [dropTrail_concat_newline, dropTrail_concat_nonspace _ _ (by decide)]
      simp [hticks3, List.append_assoc]
  rw [hstep1, splitLines_append_newline _ _ hA]
  have hsm : splitLines (seg mid ++ ticks) = mid ++ [ticks] := by
    rw [← joinL_concat]
    refine splitLines_joinL _ (by simp) ?_
    intro l hl
    rcases List.mem_append.mp hl with hml | hml
    · exact h2 l hml
    · simp only [List.mem_singleton] at hml
      subst hml
      decide
  rw [hsm]
  have hstart : startsWithL (dropLead opener) spoilerTag = true :=
    startsWithL_of_isPre _ _ _ (dropTrail_isPre (dropLead opener)) h3
  unfold spoilerStructOk
  simp only [List.headD_cons, hstart, Bool.true_and, Bool.and_eq_true, decide_eq_true_eq]
  constructor
  · simp
  · rw [← List.cons_append]
    exact List.getLastD_concat _ _ _

/-- Witness for the amended C9 on a concrete buffer with a well-formed
closing fence line. -/
theorem claim9_struct_precondition_amended_witness :
    ('\n' ∉ "```spoiler a".data) ∧ (∀ m ∈ (["x".data] : List (List Char)), '\n' ∉ m) ∧
      startsWithL (trimSpace "```spoiler a".data) spoilerTag = true ∧
      spoilerStructOk (splitLines (trimSpace
        (joinL ("```spoiler a".data :: (["x".data] ++ [ticks])) ++
          (if true then ['\n'] else [])))) = true :=
  ⟨by decide, by decide, by decide,
    claim9_struct_precondition_amended "```spoiler a".data ["x".data] true
      (by decide) (by decide) (by decide)⟩
